import Mathlib

/-!
Verification of the transient buffer cache
(`src/xenia/gpu/vulkan/buffer_cache.cc`).

The development shallowly embeds the functions of the file:

* the endian-copy routines (`copy_cmp_swap_16/32_unaligned` from the
  `XE_ARCH_AMD64` branch and the scalar `copy_and_swap_16/32_unaligned`
  with a `cmp_value` parameter from the `#else` branch) become pure
  functions on lists of machine words modelled as `Nat` with explicit
  reductions modulo the word size;
* the `transient_cache_` `std::map<uint32_t, std::pair<uint32_t,
  VkDeviceSize>>` becomes a key-sorted association list, and
  `FindCachedTransientData` / `CacheTransientData` are translated from
  the iterator code (`upper_bound`, decrement, forward erase loop);
* the stateful orchestration (`AllocateTransientData`,
  `TryAllocateTransientData`, `UploadIndexBuffer`, `UploadVertexBuffer`,
  `UploadConstantRegisters`, `Scavenge`, `InvalidateCache`,
  `ClearCache`) becomes explicit state passing over a `BCState`
  record.  The `CircularBuffer` (`transient_buffer_`) is external to
  the file, so it is abstracted as a pair of functions
  (`Acquire` / `Scavenge`) over an opaque state type; the embedding
  additionally logs, as plain counters and a write log, which effects
  each call performs (buffer writes, copy-engine invocations, ring
  `Acquire` and `Scavenge` invocations).
-/

/-- `2^16`, the modulus of `uint16_t` values. -/
def U16 : Nat := 65536

/-- `2^32`, the modulus of `uint32_t` values. -/
def U32 : Nat := 4294967296

/-- `2^64`, the modulus of `uint64_t` / `VkDeviceSize` values. -/
def U64 : Nat := 18446744073709551616

/-- `VK_WHOLE_SIZE = ~0ULL`, used by the source as the out-of-memory /
cache-miss sentinel. -/
def VK_WHOLE_SIZE : Nat := 18446744073709551615

/-- `xe::byte_swap` on a `uint16_t`: reverse the two bytes. -/
def bswap16 (v : Nat) : Nat :=
  let v := v % U16
  (v % 256) * 256 + v / 256

/-- `xe::byte_swap` on a `uint32_t`: reverse the four bytes. -/
def bswap32 (v : Nat) : Nat :=
  let v := v % U32
  (v % 256) * 16777216 + (v / 256 % 256) * 65536 + (v / 65536 % 256) * 256 +
    v / 16777216

/-- One 16-bit SIMD lane of the `copy_cmp_swap_16_unaligned` main loop:
`_mm_shuffle_epi8` with the half-word-reversing mask byte-swaps the lane,
`_mm_cmpeq_epi16` produces an all-ones mask on equality with `cmp_value`,
and `_mm_or_si128` merges the mask in, so an equal lane becomes `0xFFFF`. -/
def simdLane16 (cmpv v : Nat) : Nat :=
  let w := bswap16 v
  if w = cmpv then 65535 else w

/-- One 32-bit SIMD lane of the `copy_cmp_swap_32_unaligned` main loop,
analogous to `simdLane16` (`_mm_cmpeq_epi32`, all-ones `0xFFFFFFFF`). -/
def simdLane32 (cmpv v : Nat) : Nat :=
  let w := bswap32 v
  if w = cmpv then 4294967295 else w

/-- The loop structure of `copy_cmp_swap_16_unaligned`: while `i + 8 <= count`
process a block of 8 lanes with swap-and-substitute, then handle the residual
elements with a plain `byte_swap` (the residual loop performs no comparison
against `cmp_value`). -/
def cmpSwapBlocks16 (cmpv : Nat) : List Nat → List Nat
  | v0 :: v1 :: v2 :: v3 :: v4 :: v5 :: v6 :: v7 :: rest =>
    ([v0, v1, v2, v3, v4, v5, v6, v7].map (simdLane16 cmpv)) ++
      cmpSwapBlocks16 cmpv rest
  | residual => residual.map bswap16

/-- The loop structure of `copy_cmp_swap_32_unaligned`: blocks of 4 lanes of
swap-and-substitute, then residual elements with a plain `byte_swap`. -/
def cmpSwapBlocks32 (cmpv : Nat) : List Nat → List Nat
  | v0 :: v1 :: v2 :: v3 :: rest =>
    ([v0, v1, v2, v3].map (simdLane32 cmpv)) ++ cmpSwapBlocks32 cmpv rest
  | residual => residual.map bswap32

/-- `copy_cmp_swap_16_unaligned(dest, src, cmp_value, count)` from the
`XE_ARCH_AMD64` branch, as the list of `uint16_t` elements written to
`dest`.  The `uint16_t cmp_value` parameter is reduced modulo `2^16`. -/
def copy_cmp_swap_16_unaligned (src : List Nat) (cmp_value : Nat) : List Nat :=
  cmpSwapBlocks16 (cmp_value % U16) src

/-- `copy_cmp_swap_32_unaligned(dest, src, cmp_value, count)` from the
`XE_ARCH_AMD64` branch, as the list of `uint32_t` elements written to
`dest`. -/
def copy_cmp_swap_32_unaligned (src : List Nat) (cmp_value : Nat) : List Nat :=
  cmpSwapBlocks32 (cmp_value % U32) src

/-- The scalar `copy_and_swap_16_unaligned(dest, src, cmp_value, count)` from
the `#else` (non-AMD64) branch: for every element, byte-swap and replace the
result by `0xFFFF` when it equals `cmp_value`. -/
def copy_and_swap_16_unaligned (src : List Nat) (cmp_value : Nat) : List Nat :=
  src.map (fun v =>
    let value := bswap16 v
    if value = cmp_value % U16 then 65535 else value)

/-- The scalar `copy_and_swap_32_unaligned(dest, src, cmp_value, count)` from
the `#else` (non-AMD64) branch. -/
def copy_and_swap_32_unaligned (src : List Nat) (cmp_value : Nat) : List Nat :=
  src.map (fun v =>
    let value := bswap32 v
    if value = cmp_value % U32 then 4294967295 else value)

/-- Modelled from the spec: `xe::copy_and_swap_16_unaligned(dest, src, count)`
(the plain three-argument routine from `xenia/base/memory`, not part of this
source file) is `SwapWords16`: it reverses the byte order of each 16-bit
element and performs no substitution. -/
def xe_copy_and_swap_16_unaligned (src : List Nat) : List Nat :=
  src.map bswap16

/-- Modelled from the spec: `xe::copy_and_swap_32_unaligned(dest, src, count)`
(from `xenia/base/memory`, not part of this source file) is `SwapWords32`. -/
def xe_copy_and_swap_32_unaligned (src : List Nat) : List Nat :=
  src.map bswap32

/-- Modelled from the spec: `xe::copy_and_swap_16_in_32_unaligned` (from
`xenia/base/memory`, not part of this source file) is `SwapHalvesIn32`: it
swaps the two 16-bit halves of each 32-bit element without reversing the
bytes inside each half. -/
def xe_copy_and_swap_16_in_32_unaligned (src : List Nat) : List Nat :=
  src.map (fun v => (v % U32 % 65536) * 65536 + v % U32 / 65536)

/-- Read a `uint16_t` at byte address `a` from guest-translated host memory
(`mem` maps byte addresses to byte values; the host is little-endian). -/
def read16 (mem : Nat → Nat) (a : Nat) : Nat :=
  mem a % 256 + (mem (a + 1) % 256) * 256

/-- Read a `uint32_t` at byte address `a` (little-endian host). -/
def read32 (mem : Nat → Nat) (a : Nat) : Nat :=
  mem a % 256 + (mem (a + 1) % 256) * 256 + (mem (a + 2) % 256) * 65536 +
    (mem (a + 3) % 256) * 16777216

/-- The `count` consecutive `uint16_t` elements starting at byte address
`base`, as produced by `reinterpret_cast<const uint16_t*>`. -/
def readElems16 (mem : Nat → Nat) (base count : Nat) : List Nat :=
  (List.range count).map (fun i => read16 mem (base + 2 * i))

/-- The `count` consecutive `uint32_t` elements starting at byte address
`base`. -/
def readElems32 (mem : Nat → Nat) (base count : Nat) : List Nat :=
  (List.range count).map (fun i => read32 mem (base + 4 * i))

/-- An entry of `transient_cache_`: `(guest_address, guest_length,
buffer_offset)`, i.e. a binding of the `std::map<uint32_t,
std::pair<uint32_t, VkDeviceSize>>`. -/
abbrev TransientCache := List (Nat × Nat × Nat)

/-- The `std::map` representation invariant on the association list: keys
strictly increase. -/
def sortedKeys : TransientCache → Bool
  | [] => true
  | [_] => true
  | a :: b :: rest => decide (a.1 < b.1) && sortedKeys (b :: rest)

/-- `std::map::upper_bound(addr)` followed by the decrement in
`FindCachedTransientData`: on a key-sorted list this returns the binding with
the greatest key `<= addr`, if any. -/
def findLE : TransientCache → Nat → Option (Nat × Nat × Nat)
  | [], _ => none
  | e :: rest, addr =>
    if e.1 ≤ addr then
      match findLE rest addr with
      | some r => some r
      | none => some e
    else
      none

/-- `transient_cache_[guest_address] = {guest_length, offset}`: insert or
replace the binding for `guest_address` in the key-sorted list. -/
def mapInsert (c : TransientCache) (k len off : Nat) : TransientCache :=
  match c with
  | [] => [(k, len, off)]
  | e :: rest =>
    if k < e.1 then (k, len, off) :: e :: rest
    else if k = e.1 then (k, len, off) :: rest
    else e :: mapInsert rest k len off

/-- The erase loop of `CacheTransientData`, beginning at
`upper_bound(guest_address)`: erase successive entries while
`(guest_address + guest_length) >= (it->first + it->second.first)` (a
`uint32_t` comparison), and `break` at the first entry for which the
condition fails. -/
def eraseRun (addr len : Nat) : TransientCache → TransientCache
  | [] => []
  | e :: rest =>
    if (addr + len) % U32 ≥ (e.1 + e.2.1) % U32 then eraseRun addr len rest
    else e :: rest

/-- Position the erase loop of `CacheTransientData` at
`upper_bound(guest_address)`: skip the (sorted) bindings with key
`<= guest_address`, then run `eraseRun` on the rest. -/
def cacheScan (addr len : Nat) : TransientCache → TransientCache
  | [] => []
  | e :: rest =>
    if e.1 ≤ addr then e :: cacheScan addr len rest
    else eraseRun addr len (e :: rest)

/-- `BufferCache::CacheTransientData(guest_address, guest_length, offset)`:
store the binding, then erase the entries contained within, scanning forward
from `upper_bound(guest_address)` with an early `break`. -/
def CacheTransientData (c : TransientCache) (guest_address guest_length : Nat)
    (offset : Nat) : TransientCache :=
  cacheScan guest_address guest_length
    (mapInsert c guest_address guest_length offset)

/-- `BufferCache::FindCachedTransientData(guest_address, guest_length)`:
short-circuit on an empty map; otherwise take `upper_bound(guest_address)`,
step back to the greatest key `<= guest_address` if possible, and report a
hit iff the `uint32_t` end of that entry,  `it->first + it->second.first` is
`>= guest_address + guest_length`; a hit returns
`it->second.second + (guest_address - it->first)` (a `VkDeviceSize` sum). -/
def FindCachedTransientData (c : TransientCache)
    (guest_address guest_length : Nat) : Nat :=
  if c.isEmpty then VK_WHOLE_SIZE
  else
    match findLE c guest_address with
    | none => VK_WHOLE_SIZE
    | some e =>
      if (e.1 + e.2.1) % U32 ≥ (guest_address + guest_length) % U32 then
        (e.2.2 + (guest_address - e.1)) % U64
      else
        VK_WHOLE_SIZE

/-- The external `ui::vulkan::CircularBuffer` interface consumed by this
file, over an opaque ring-buffer state `σ`: `Acquire(length, fence)` either
returns an allocation offset and the successor state or fails, and
`Scavenge()` reclaims retired space.  (The circular buffer itself is outside
this source file.) -/
structure RingOps (σ : Type) where
  acquire : σ → Nat → Nat → Option (Nat × σ)
  scavenge : σ → σ

/-- The state of a `BufferCache`, together with an effect log: the
`transient_cache_` map, the opaque `transient_buffer_` ring state, the log of
element writes into host memory of the transient buffer (offset paired with
the elements stored there), and counters of copy-engine invocations, ring
`Acquire` calls, and ring `Scavenge` calls. -/
structure BCState (σ : Type) where
  transient_cache : TransientCache
  rb : σ
  writes : List (Nat × List Nat)
  copy_count : Nat
  acquire_count : Nat
  scavenge_count : Nat
deriving DecidableEq

/-- `BufferCache::TryAllocateTransientData(length, fence)`: one
`transient_buffer_->Acquire(length, fence)` call; returns, for the allocation, the
offset on success and `VK_WHOLE_SIZE` on failure. -/
def TryAllocateTransientData {σ : Type} (R : RingOps σ) (s : BCState σ)
    (length fence : Nat) : Nat × BCState σ :=
  let s := { s with acquire_count := s.acquire_count + 1 }
  match R.acquire s.rb length fence with
  | some (off, rb2) => (off, { s with rb := rb2 })
  | none => (VK_WHOLE_SIZE, s)

/-- `BufferCache::AllocateTransientData(length, fence)`: try the fast path;
if it fails, `transient_buffer_->Scavenge()` once and try again, returning
whatever the second attempt yields. -/
def AllocateTransientData {σ : Type} (R : RingOps σ) (s : BCState σ)
    (length fence : Nat) : Nat × BCState σ :=
  let r := TryAllocateTransientData R s length fence
  if r.1 ≠ VK_WHOLE_SIZE then r
  else
    let s2 := { r.2 with rb := R.scavenge r.2.rb,
                         scavenge_count := r.2.scavenge_count + 1 }
    TryAllocateTransientData R s2 length fence

/-- `BufferCache::InvalidateCache()`: `transient_cache_.clear()`. -/
def InvalidateCache {σ : Type} (s : BCState σ) : BCState σ :=
  { s with transient_cache := [] }

/-- `BufferCache::ClearCache()`: `transient_cache_.clear()`. -/
def ClearCache {σ : Type} (s : BCState σ) : BCState σ :=
  { s with transient_cache := [] }

/-- `BufferCache::Scavenge()`: `transient_cache_.clear()` then
`transient_buffer_->Scavenge()`. -/
def Scavenge {σ : Type} (R : RingOps σ) (s : BCState σ) : BCState σ :=
  { s with transient_cache := [],
           rb := R.scavenge s.rb,
           scavenge_count := s.scavenge_count + 1 }

/-- Register identifier modelled from the register table of the repository (the
header is not part of this source file); its numeric value is immaterial to
the theorems. -/
def XE_GPU_REG_SHADER_CONSTANT_000_X : Nat := 16384

/-- Register identifier modelled from the register table of the repository. -/
def XE_GPU_REG_SHADER_CONSTANT_BOOL_000_031 : Nat := 18688

/-- Register identifier modelled from the register table of the repository. -/
def XE_GPU_REG_SHADER_CONSTANT_LOOP_00 : Nat := 18696

/-- Register identifier modelled from the register table of the repository. -/
def XE_GPU_REG_VGT_MULTI_PRIM_IB_RESET_INDX : Nat := 8452

/-- Register identifier modelled from the register table of the repository. -/
def XE_GPU_REG_PA_SU_SC_MODE_CNTL : Nat := 8581

/-- `kConstantRegisterUniformRange = 512 * 4 * 4 + 8 * 4 + 32 * 4`. -/
def kConstantRegisterUniformRange : Nat := 512 * 4 * 4 + 8 * 4 + 32 * 4

/-- `xenos::IndexFormat`: 16- or 32-bit indices. -/
inductive IndexFormat where
  | kInt16
  | kInt32
deriving DecidableEq

/-- The two `xenos::Endian` modes `UploadVertexBuffer` accepts (any other
value trips `assert_always`). -/
inductive Endian where
  | k8in32
  | k16in32
deriving DecidableEq

/-- The bytes `UploadConstantRegisters` copies, as 32-bit register values:
`memcpy` of `512 * 4 * 4` bytes from `&values[XE_GPU_REG_SHADER_CONSTANT_000_X]`
(2048 consecutive registers), then `8 * 4` bytes from
`&values[XE_GPU_REG_SHADER_CONSTANT_BOOL_000_031]`, then `32 * 4` bytes from
`&values[XE_GPU_REG_SHADER_CONSTANT_LOOP_00]`, at consecutive destination
addresses and with no byte-order transform. -/
def constantRegistersData (regs : Nat → Nat) : List Nat :=
  (List.range 2048).map
    (fun i => regs (XE_GPU_REG_SHADER_CONSTANT_000_X + i) % U32) ++
  (List.range 8).map
    (fun i => regs (XE_GPU_REG_SHADER_CONSTANT_BOOL_000_031 + i) % U32) ++
  (List.range 32).map
    (fun i => regs (XE_GPU_REG_SHADER_CONSTANT_LOOP_00 + i) % U32)

/-- `BufferCache::UploadConstantRegisters(command_buffer, ..., fence)`:
allocate `kConstantRegisterUniformRange` bytes, then `memcpy` the 512 vec4
float constants (`512 * 4 * 4` bytes, i.e. 2048 `uint32_t` registers), the 8
bool constants (`8 * 4` bytes) and the 32 loop constants (`32 * 4` bytes)
verbatim from the register file at consecutive destination addresses, and
return `{offset, offset}`.  `regs` maps a register index to its 32-bit
value. -/
def UploadConstantRegisters {σ : Type} (R : RingOps σ) (regs : Nat → Nat)
    (s : BCState σ) (fence : Nat) : (Nat × Nat) × BCState σ :=
  let r := AllocateTransientData R s kConstantRegisterUniformRange fence
  let offset := r.1
  let s1 := r.2
  if offset = VK_WHOLE_SIZE then ((VK_WHOLE_SIZE, VK_WHOLE_SIZE), s1)
  else
    let data := constantRegistersData regs
    ((offset, offset), { s1 with writes := s1.writes ++ [(offset, data)] })

/-- The index data `UploadIndexBuffer` copies into the transient buffer:
`prim_reset_index` is read from `XE_GPU_REG_VGT_MULTI_PRIM_IB_RESET_INDX` and
`prim_reset_enabled` is bit 21 of `XE_GPU_REG_PA_SU_SC_MODE_CNTL`; with
primitive reset enabled the data is `copy_cmp_swap_16_unaligned` (with
`cmp_value = static_cast<uint16_t>(prim_reset_index)`, `count =
source_length / 2`) or `copy_cmp_swap_32_unaligned` (`count =
source_length / 4`) of the guest elements, and with it disabled it is the
plain `xe::copy_and_swap_16/32_unaligned`. -/
def indexUploadElems (regs mem : Nat → Nat) (source_addr source_length : Nat)
    (format : IndexFormat) : List Nat :=
  let prim_reset_index := regs XE_GPU_REG_VGT_MULTI_PRIM_IB_RESET_INDX % U32
  let prim_reset_enabled :=
    Nat.testBit (regs XE_GPU_REG_PA_SU_SC_MODE_CNTL % U32) 21
  if prim_reset_enabled then
    match format with
    | .kInt16 =>
      copy_cmp_swap_16_unaligned
        (readElems16 mem source_addr (source_length / 2))
        (prim_reset_index % U16)
    | .kInt32 =>
      copy_cmp_swap_32_unaligned
        (readElems32 mem source_addr (source_length / 4))
        prim_reset_index
  else
    match format with
    | .kInt16 =>
      xe_copy_and_swap_16_unaligned
        (readElems16 mem source_addr (source_length / 2))
    | .kInt32 =>
      xe_copy_and_swap_32_unaligned
        (readElems32 mem source_addr (source_length / 4))

/-- `BufferCache::UploadIndexBuffer(command_buffer, source_addr,
source_length, format, fence)`: allocate `source_length` bytes (returning
`{nullptr, VK_WHOLE_SIZE}` on OOM), read the primitive-restart registers,
and copy the index data with `copy_cmp_swap_16/32_unaligned` (restart
enabled) or `xe::copy_and_swap_16/32_unaligned` (restart disabled), the
width chosen by `format`; the result pairs the transient GPU buffer
(modelled as `true`; `nullptr` is `false`) with the offset. -/
def UploadIndexBuffer {σ : Type} (R : RingOps σ) (regs : Nat → Nat)
    (mem : Nat → Nat) (s : BCState σ) (source_addr source_length : Nat)
    (format : IndexFormat) (fence : Nat) : (Bool × Nat) × BCState σ :=
  let r := AllocateTransientData R s source_length fence
  let offset := r.1
  let s1 := r.2
  if offset = VK_WHOLE_SIZE then ((false, VK_WHOLE_SIZE), s1)
  else
    let elems := indexUploadElems regs mem source_addr source_length format
    ((true, offset),
     { s1 with writes := s1.writes ++ [(offset, elems)],
               copy_count := s1.copy_count + 1 })

/-- The vertex data `UploadVertexBuffer` copies: `source_length / 4` 32-bit
elements starting at `upload_base`, converted with
`xe::copy_and_swap_32_unaligned` (`Endian::k8in32`) or
`xe::copy_and_swap_16_in_32_unaligned` (`Endian::k16in32`). -/
def vertexUploadElems (mem : Nat → Nat) (upload_base source_length : Nat)
    (endian : Endian) : List Nat :=
  match endian with
  | .k8in32 =>
    xe_copy_and_swap_32_unaligned
      (readElems32 mem upload_base (source_length / 4))
  | .k16in32 =>
    xe_copy_and_swap_16_in_32_unaligned
      (readElems32 mem upload_base (source_length / 4))

/-- `BufferCache::UploadVertexBuffer(command_buffer, source_addr,
source_length, endian, fence)`: consult `FindCachedTransientData` first and
return the cached offset on a hit; on a miss allocate (`upload_base =
source_addr`, `upload_size = source_length` — the `QueryBaseAndSize`
expansion is commented out in the source), copy with
`xe::copy_and_swap_32_unaligned` or `xe::copy_and_swap_16_in_32_unaligned`
per `endian`, record the range via `CacheTransientData`, and return
`offset + source_offset` (a `VkDeviceSize` sum, `source_offset = 0`). -/
def UploadVertexBuffer {σ : Type} (R : RingOps σ) (mem : Nat → Nat)
    (s : BCState σ) (source_addr source_length : Nat) (endian : Endian)
    (fence : Nat) : (Bool × Nat) × BCState σ :=
  let cached := FindCachedTransientData s.transient_cache source_addr
    source_length
  if cached ≠ VK_WHOLE_SIZE then ((true, cached), s)
  else
    let upload_base := source_addr
    let upload_size := source_length
    let source_offset := source_addr - upload_base
    let r := AllocateTransientData R s upload_size fence
    let offset := r.1
    let s1 := r.2
    if offset = VK_WHOLE_SIZE then ((false, VK_WHOLE_SIZE), s1)
    else
      let elems := vertexUploadElems mem upload_base source_length endian
      let s2 := { s1 with writes := s1.writes ++ [(offset, elems)],
                          copy_count := s1.copy_count + 1 }
      let c3 := CacheTransientData s2.transient_cache upload_base upload_size
        offset
      let s3 := { s2 with transient_cache := c3 }
      ((true, (offset + source_offset) % U64), s3)

lemma sortedKeys_cons_cons {a b : Nat × Nat × Nat} {rest : TransientCache} :
    sortedKeys (a :: b :: rest) = true ↔
      a.1 < b.1 ∧ sortedKeys (b :: rest) = true := by
  simp [sortedKeys]

lemma sortedKeys_cons_iff {e : Nat × Nat × Nat} {t : TransientCache} :
    sortedKeys (e :: t) = true ↔
      (∀ x ∈ t, e.1 < x.1) ∧ sortedKeys t = true := by
  induction t generalizing e with
  | nil => simp [sortedKeys]
  | cons b rest ih =>
    rw [sortedKeys_cons_cons]
    constructor
    · rintro ⟨h1, h2⟩
      have hrest := (ih.mp h2).1
      refine ⟨?_, h2⟩
      intro x hx
      rcases List.mem_cons.mp hx with hx | hx
      · exact hx ▸ h1
      · exact Nat.lt_trans h1 (hrest x hx)
    · rintro ⟨h1, h2⟩
      exact ⟨h1 b (List.mem_cons_self b rest), h2⟩

lemma mem_eraseRun {addr len : Nat} {c : TransientCache}
    {x : Nat × Nat × Nat} (hx : x ∈ eraseRun addr len c) : x ∈ c := by
  induction c with
  | nil => simpa [eraseRun] using hx
  | cons e rest ih =>
    by_cases h : (addr + len) % U32 ≥ (e.1 + e.2.1) % U32
    · simp only [eraseRun, if_pos h] at hx
      exact List.mem_cons_of_mem e (ih hx)
    · simpa [eraseRun, if_neg h] using hx

lemma eraseRun_sorted {addr len : Nat} {c : TransientCache}
    (hs : sortedKeys c = true) : sortedKeys (eraseRun addr len c) = true := by
  induction c with
  | nil => simpa [eraseRun] using hs
  | cons e rest ih =>
    by_cases h : (addr + len) % U32 ≥ (e.1 + e.2.1) % U32
    · simp only [eraseRun, if_pos h]
      exact ih (sortedKeys_cons_iff.mp hs).2
    · simpa [eraseRun, if_neg h] using hs

lemma mem_cacheScan {addr len : Nat} {c : TransientCache}
    {x : Nat × Nat × Nat} (hx : x ∈ cacheScan addr len c) : x ∈ c := by
  induction c with
  | nil => simpa [cacheScan] using hx
  | cons e rest ih =>
    by_cases h : e.1 ≤ addr
    · simp only [cacheScan, if_pos h] at hx
      rcases List.mem_cons.mp hx with hx | hx
      · exact hx ▸ List.mem_cons_self e rest
      · exact List.mem_cons_of_mem e (ih hx)
    · simp only [cacheScan, if_neg h] at hx
      exact mem_eraseRun hx

lemma cacheScan_sorted {addr len : Nat} {c : TransientCache}
    (hs : sortedKeys c = true) : sortedKeys (cacheScan addr len c) = true := by
  induction c with
  | nil => simpa [cacheScan] using hs
  | cons e rest ih =>
    rcases sortedKeys_cons_iff.mp hs with ⟨hlt, hrest⟩
    by_cases h : e.1 ≤ addr
    · simp only [cacheScan, if_pos h]
      refine sortedKeys_cons_iff.mpr ⟨?_, ih hrest⟩
      intro x hx
      exact hlt x (mem_cacheScan hx)
    · simp only [cacheScan, if_neg h]
      exact eraseRun_sorted hs

lemma cacheScan_keeps_le {addr len : Nat} {c : TransientCache}
    (hs : sortedKeys c = true) {x : Nat × Nat × Nat} (hx : x ∈ c)
    (hle : x.1 ≤ addr) : x ∈ cacheScan addr len c := by
  induction c with
  | nil => simpa using hx
  | cons e rest ih =>
    rcases sortedKeys_cons_iff.mp hs with ⟨hlt, hrest⟩
    by_cases h : e.1 ≤ addr
    · simp only [cacheScan, if_pos h]
      rcases List.mem_cons.mp hx with hx | hx
      · exact hx ▸ List.mem_cons_self e _
      · exact List.mem_cons_of_mem e (ih hrest hx)
    · exfalso
      rcases List.mem_cons.mp hx with hx | hx
      · exact h (hx ▸ hle)
      · exact h (Nat.le_of_lt (Nat.lt_of_lt_of_le (hlt x hx) hle))

lemma mem_mapInsert {c : TransientCache} {k len off : Nat}
    {x : Nat × Nat × Nat} (hx : x ∈ mapInsert c k len off) :
    x = (k, len, off) ∨ x ∈ c := by
  induction c with
  | nil => simpa [mapInsert] using hx
  | cons e rest ih =>
    by_cases h1 : k < e.1
    · simp only [mapInsert, if_pos h1] at hx
      rcases List.mem_cons.mp hx with hx | hx
      · exact Or.inl hx
      · exact Or.inr hx
    · by_cases h2 : k = e.1
      · simp only [mapInsert, if_neg h1, if_pos h2] at hx
        rcases List.mem_cons.mp hx with hx | hx
        · exact Or.inl hx
        · exact Or.inr (List.mem_cons_of_mem e hx)
      · simp only [mapInsert, if_neg h1, if_neg h2] at hx
        rcases List.mem_cons.mp hx with hx | hx
        · exact Or.inr (hx ▸ List.mem_cons_self e rest)
        · rcases ih hx with hx | hx
          · exact Or.inl hx
          · exact Or.inr (List.mem_cons_of_mem e hx)

lemma mapInsert_mem_self {c : TransientCache} {k len off : Nat} :
    (k, len, off) ∈ mapInsert c k len off := by
  induction c with
  | nil => simp [mapInsert]
  | cons e rest ih =>
    by_cases h1 : k < e.1
    · simp [mapInsert, if_pos h1]
    · by_cases h2 : k = e.1
      · simp [mapInsert, if_neg h1, if_pos h2]
      · simp only [mapInsert, if_neg h1, if_neg h2]
        exact List.mem_cons_of_mem e ih

lemma mapInsert_sorted {c : TransientCache} {k len off : Nat}
    (hs : sortedKeys c = true) :
    sortedKeys (mapInsert c k len off) = true := by
  induction c with
  | nil => simp [mapInsert, sortedKeys]
  | cons e rest ih =>
    rcases sortedKeys_cons_iff.mp hs with ⟨hlt, hrest⟩
    by_cases h1 : k < e.1
    · simp only [mapInsert, if_pos h1]
      refine sortedKeys_cons_iff.mpr ⟨?_, hs⟩
      intro x hx
      rcases List.mem_cons.mp hx with hx | hx
      · exact hx ▸ h1
      · exact Nat.lt_trans h1 (hlt x hx)
    · by_cases h2 : k = e.1
      · simp only [mapInsert, if_neg h1, if_pos h2]
        refine sortedKeys_cons_iff.mpr ⟨?_, hrest⟩
        intro x hx
        exact h2 ▸ hlt x hx
      · simp only [mapInsert, if_neg h1, if_neg h2]
        refine sortedKeys_cons_iff.mpr ⟨?_, ih hrest⟩
        intro x hx
        rcases mem_mapInsert hx with hx | hx
        · have hk : e.1 < k := by omega
          exact hx ▸ hk
        · exact hlt x hx

lemma mapInsert_key_eq {c : TransientCache} {k len off : Nat}
    (hs : sortedKeys c = true) {x : Nat × Nat × Nat}
    (hx : x ∈ mapInsert c k len off) (hk : x.1 = k) : x = (k, len, off) := by
  induction c with
  | nil => simpa [mapInsert] using hx
  | cons e rest ih =>
    rcases sortedKeys_cons_iff.mp hs with ⟨hlt, hrest⟩
    by_cases h1 : k < e.1
    · simp only [mapInsert, if_pos h1] at hx
      rcases List.mem_cons.mp hx with hx | hx
      · exact hx
      · exfalso
        rcases List.mem_cons.mp hx with hx | hx
        · have : x.1 = e.1 := by rw [hx]
          omega
        · have := hlt x hx
          omega
    · by_cases h2 : k = e.1
      · simp only [mapInsert, if_neg h1, if_pos h2] at hx
        rcases List.mem_cons.mp hx with hx | hx
        · exact hx
        · exfalso
          have := hlt x hx
          omega
      · simp only [mapInsert, if_neg h1, if_neg h2] at hx
        rcases List.mem_cons.mp hx with hx | hx
        · exfalso
          have : x.1 = e.1 := by rw [hx]
          omega
        · exact ih hrest hx

lemma findLE_eq_none {c : TransientCache} {addr : Nat}
    (h : ∀ x ∈ c, addr < x.1) : findLE c addr = none := by
  cases c with
  | nil => simp [findLE]
  | cons e rest =>
    have h1 : ¬ e.1 ≤ addr := by
      have := h e (List.mem_cons_self e rest)
      omega
    simp [findLE, h1]

lemma findLE_greatest {c : TransientCache} {addr : Nat}
    (hs : sortedKeys c = true) {e : Nat × Nat × Nat} (he : e ∈ c)
    (hle : e.1 ≤ addr) (hmax : ∀ x ∈ c, x.1 ≤ addr → x.1 ≤ e.1) :
    findLE c addr = some e := by
  induction c with
  | nil => simp at he
  | cons hd rest ih =>
    rcases sortedKeys_cons_iff.mp hs with ⟨hlt, hrest⟩
    have hhd : hd.1 ≤ addr := by
      rcases List.mem_cons.mp he with h | h
      · rw [← h]
        exact hle
      · exact Nat.le_of_lt (Nat.lt_of_lt_of_le (hlt e h) hle)
    rcases List.mem_cons.mp he with h | h
    · subst h
      have hnone : findLE rest addr = none := by
        apply findLE_eq_none
        intro x hx
        by_contra hcon
        push_neg at hcon
        have h1 := hmax x (List.mem_cons_of_mem e hx) hcon
        have h2 := hlt x hx
        omega
      simp [findLE, hhd, hnone]
    · have hmax2 : ∀ x ∈ rest, x.1 ≤ addr → x.1 ≤ e.1 := by
        intro x hx hxa
        exact hmax x (List.mem_cons_of_mem hd hx) hxa
      have hr := ih hrest h hmax2
      simp [findLE, hhd, hr]

lemma find_eq_of_findLE {c : TransientCache} {addr len : Nat}
    {e : Nat × Nat × Nat} (hne : c ≠ []) (hf : findLE c addr = some e) :
    FindCachedTransientData c addr len =
      if (e.1 + e.2.1) % U32 ≥ (addr + len) % U32 then
        (e.2.2 + (addr - e.1)) % U64
      else VK_WHOLE_SIZE := by
  have hempty : c.isEmpty = false := by
    cases c with
    | nil => exact absurd rfl hne
    | cons hd tl => rfl
  unfold FindCachedTransientData
  rw [hempty, hf]
  simp

lemma cacheInsert_sorted {c : TransientCache} {a l o : Nat}
    (hs : sortedKeys c = true) :
    sortedKeys (CacheTransientData c a l o) = true :=
  cacheScan_sorted (mapInsert_sorted hs)

lemma find_after_insert {c : TransientCache} {a l o : Nat}
    (hs : sortedKeys c = true) (ho : o < VK_WHOLE_SIZE) :
    FindCachedTransientData (CacheTransientData c a l o) a l = o := by
  have hmem : (a, l, o) ∈ CacheTransientData c a l o :=
    cacheScan_keeps_le (mapInsert_sorted hs) mapInsert_mem_self
      (Nat.le_refl a)
  have hsorted : sortedKeys (CacheTransientData c a l o) = true :=
    cacheInsert_sorted hs
  have hfind : findLE (CacheTransientData c a l o) a = some (a, l, o) := by
    apply findLE_greatest hsorted hmem (Nat.le_refl a)
    intro x hx hxa
    exact hxa
  have hne : CacheTransientData c a l o ≠ [] := by
    intro h
    rw [h] at hmem
    simp at hmem
  rw [find_eq_of_findLE hne hfind]
  have hU : o < U64 := by
    unfold VK_WHOLE_SIZE at ho
    unfold U64
    omega
  simp [Nat.mod_eq_of_lt hU]

lemma tryAllocate_preserves {σ : Type} (R : RingOps σ) (s : BCState σ)
    (len fence : Nat) :
    (TryAllocateTransientData R s len fence).2.transient_cache =
        s.transient_cache ∧
      (TryAllocateTransientData R s len fence).2.writes = s.writes ∧
      (TryAllocateTransientData R s len fence).2.copy_count = s.copy_count ∧
      (TryAllocateTransientData R s len fence).2.scavenge_count =
        s.scavenge_count := by
  rcases h : R.acquire s.rb len fence with _ | ⟨off, rb2⟩ <;>
    simp [TryAllocateTransientData, h]

lemma allocate_preserves {σ : Type} (R : RingOps σ) (s : BCState σ)
    (len fence : Nat) :
    (AllocateTransientData R s len fence).2.transient_cache =
        s.transient_cache ∧
      (AllocateTransientData R s len fence).2.writes = s.writes ∧
      (AllocateTransientData R s len fence).2.copy_count = s.copy_count := by
  unfold AllocateTransientData
  by_cases h : (TryAllocateTransientData R s len fence).1 ≠ VK_WHOLE_SIZE
  · rcases tryAllocate_preserves R s len fence with ⟨h1, h2, h3, _⟩
    simp [h, h1, h2, h3]
  · rcases tryAllocate_preserves R s len fence with ⟨h1, h2, h3, _⟩
    rw [if_neg h]
    rcases tryAllocate_preserves R
      { (TryAllocateTransientData R s len fence).2 with
          rb := R.scavenge (TryAllocateTransientData R s len fence).2.rb,
          scavenge_count :=
            (TryAllocateTransientData R s len fence).2.scavenge_count + 1 }
      len fence with ⟨g1, g2, g3, _⟩
    rw [g1, g2, g3]
    simp [h1, h2, h3]

lemma eraseRun_spec {a l : Nat} {c : TransientCache}
    (hs : sortedKeys c = true) (hgt : ∀ x ∈ c, a < x.1)
    {e : Nat × Nat × Nat} (he : e ∈ eraseRun a l c)
    (hcont : (a + l) % U32 ≥ (e.1 + e.2.1) % U32) :
    ∃ e2 ∈ eraseRun a l c, a < e2.1 ∧ e2.1 < e.1 ∧
      (a + l) % U32 < (e2.1 + e2.2.1) % U32 := by
  induction c with
  | nil => simp [eraseRun] at he
  | cons hd rest ih =>
    rcases sortedKeys_cons_iff.mp hs with ⟨hlt, hrest⟩
    by_cases h : (a + l) % U32 ≥ (hd.1 + hd.2.1) % U32
    · simp only [eraseRun, if_pos h] at he ⊢
      exact ih hrest (fun x hx => hgt x (List.mem_cons_of_mem hd hx)) he
    · simp only [eraseRun, if_neg h] at he ⊢
      rcases List.mem_cons.mp he with he2 | he2
      · exfalso
        rw [he2] at hcont
        exact h hcont
      · refine ⟨hd, List.mem_cons_self hd rest,
          hgt hd (List.mem_cons_self hd rest), hlt e he2, by omega⟩

lemma cacheScan_spec {a l : Nat} {c : TransientCache}
    (hs : sortedKeys c = true) {e : Nat × Nat × Nat}
    (he : e ∈ cacheScan a l c) (hgt : a < e.1)
    (hcont : (a + l) % U32 ≥ (e.1 + e.2.1) % U32) :
    ∃ e2 ∈ cacheScan a l c, a < e2.1 ∧ e2.1 < e.1 ∧
      (a + l) % U32 < (e2.1 + e2.2.1) % U32 := by
  induction c with
  | nil => simp [cacheScan] at he
  | cons hd rest ih =>
    rcases sortedKeys_cons_iff.mp hs with ⟨hlt, hrest⟩
    by_cases h : hd.1 ≤ a
    · simp only [cacheScan, if_pos h] at he ⊢
      rcases List.mem_cons.mp he with he2 | he2
      · exfalso
        rw [he2] at hgt
        omega
      · rcases ih hrest he2 with ⟨e2, hm, h1, h2, h3⟩
        exact ⟨e2, List.mem_cons_of_mem hd hm, h1, h2, h3⟩
    · simp only [cacheScan, if_neg h] at he ⊢
      apply eraseRun_spec hs ?_ he hcont
      intro x hx
      rcases List.mem_cons.mp hx with hx | hx
      · rw [hx]
        omega
      · exact Nat.lt_trans (by omega) (hlt x hx)

/-- The offset component of one ring `Acquire` attempt, as a function of the
ring state only (normal form of `TryAllocateTransientData`). -/
def tryOffset {σ : Type} (R : RingOps σ) (rb : σ) (len fence : Nat) : Nat :=
  match R.acquire rb len fence with
  | some (off, _) => off
  | none => VK_WHOLE_SIZE

/-- The ring state after one `Acquire` attempt. -/
def tryRb {σ : Type} (R : RingOps σ) (rb : σ) (len fence : Nat) : σ :=
  match R.acquire rb len fence with
  | some (_, rb2) => rb2
  | none => rb

lemma tryAllocate_eq {σ : Type} (R : RingOps σ) (s : BCState σ)
    (len fence : Nat) :
    TryAllocateTransientData R s len fence =
      (tryOffset R s.rb len fence,
       { s with rb := tryRb R s.rb len fence,
                acquire_count := s.acquire_count + 1 }) := by
  rcases h : R.acquire s.rb len fence with _ | ⟨off, rb2⟩ <;>
    simp [TryAllocateTransientData, tryOffset, tryRb, h]

/-- The offset `AllocateTransientData` returns, as a function of the ring
state only. -/
def allocOffset {σ : Type} (R : RingOps σ) (rb : σ) (len fence : Nat) : Nat :=
  if tryOffset R rb len fence ≠ VK_WHOLE_SIZE then tryOffset R rb len fence
  else tryOffset R (R.scavenge (tryRb R rb len fence)) len fence

/-- The ring state `AllocateTransientData` leaves behind. -/
def allocRb {σ : Type} (R : RingOps σ) (rb : σ) (len fence : Nat) : σ :=
  if tryOffset R rb len fence ≠ VK_WHOLE_SIZE then tryRb R rb len fence
  else tryRb R (R.scavenge (tryRb R rb len fence)) len fence

/-- How many ring `Acquire` attempts `AllocateTransientData` makes. -/
def allocTries {σ : Type} (R : RingOps σ) (rb : σ) (len fence : Nat) : Nat :=
  if tryOffset R rb len fence ≠ VK_WHOLE_SIZE then 1 else 2

/-- How many ring `Scavenge` calls `AllocateTransientData` makes. -/
def allocScavs {σ : Type} (R : RingOps σ) (rb : σ) (len fence : Nat) : Nat :=
  if tryOffset R rb len fence ≠ VK_WHOLE_SIZE then 0 else 1

lemma allocate_eq {σ : Type} (R : RingOps σ) (s : BCState σ)
    (len fence : Nat) :
    AllocateTransientData R s len fence =
      (allocOffset R s.rb len fence,
       { s with rb := allocRb R s.rb len fence,
                acquire_count := s.acquire_count + allocTries R s.rb len fence,
                scavenge_count :=
                  s.scavenge_count + allocScavs R s.rb len fence }) := by
  unfold AllocateTransientData
  rw [tryAllocate_eq]
  by_cases h : tryOffset R s.rb len fence ≠ VK_WHOLE_SIZE
  · simp [h, allocOffset, allocRb, allocTries, allocScavs]
  · rw [if_neg (by simpa using h)]
    rw [tryAllocate_eq]
    simp only [allocOffset, allocRb, allocTries, allocScavs, if_neg h]

lemma tryOffset_lt {σ : Type} (R : RingOps σ) (rb : σ) (len fence : Nat)
    (hacq : ∀ (rb1 : σ) (off : Nat) (rb2 : σ),
      R.acquire rb1 len fence = some (off, rb2) → off < VK_WHOLE_SIZE)
    (h : tryOffset R rb len fence ≠ VK_WHOLE_SIZE) :
    tryOffset R rb len fence < VK_WHOLE_SIZE := by
  rcases hA : R.acquire rb len fence with _ | ⟨off, rb2⟩
  · simp [tryOffset, hA] at h
  · simp only [tryOffset, hA]
    exact hacq rb off rb2 hA

lemma allocOffset_lt {σ : Type} (R : RingOps σ) (rb : σ) (len fence : Nat)
    (hacq : ∀ (rb1 : σ) (off : Nat) (rb2 : σ),
      R.acquire rb1 len fence = some (off, rb2) → off < VK_WHOLE_SIZE)
    (h : allocOffset R rb len fence ≠ VK_WHOLE_SIZE) :
    allocOffset R rb len fence < VK_WHOLE_SIZE := by
  unfold allocOffset at h ⊢
  by_cases h1 : tryOffset R rb len fence ≠ VK_WHOLE_SIZE
  · rw [if_pos h1] at h ⊢
    exact tryOffset_lt R rb len fence hacq h1
  · rw [if_neg h1] at h ⊢
    exact tryOffset_lt R (R.scavenge (tryRb R rb len fence)) len fence hacq h

lemma uploadVertex_miss_eq {σ : Type} (R : RingOps σ) (mem : Nat → Nat)
    (s : BCState σ) (addr len : Nat) (e : Endian) (fence : Nat)
    (hf : FindCachedTransientData s.transient_cache addr len = VK_WHOLE_SIZE)
    (ha : allocOffset R s.rb len fence ≠ VK_WHOLE_SIZE) :
    UploadVertexBuffer R mem s addr len e fence =
      ((true, allocOffset R s.rb len fence % U64),
       { s with
           transient_cache := CacheTransientData s.transient_cache addr len
             (allocOffset R s.rb len fence),
           rb := allocRb R s.rb len fence,
           writes := s.writes ++
             [(allocOffset R s.rb len fence, vertexUploadElems mem addr len e)],
           copy_count := s.copy_count + 1,
           acquire_count := s.acquire_count + allocTries R s.rb len fence,
           scavenge_count :=
             s.scavenge_count + allocScavs R s.rb len fence }) := by
  simp [UploadVertexBuffer, hf, allocate_eq, ha]

/-- A concrete ring whose `Acquire` always fails (exhausted arena). -/
def ringAlwaysFail : RingOps Nat :=
  { acquire := fun _ _ _ => none, scavenge := fun rb => rb }

/-- A concrete ring whose `Acquire` always succeeds at offset 0. -/
def ringAlwaysZero : RingOps Nat :=
  { acquire := fun rb _ _ => some (0, rb), scavenge := fun rb => rb }

/-- A concrete initial `BufferCache` state with an empty range cache. -/
def emptyState : BCState Nat :=
  { transient_cache := [], rb := 0, writes := [], copy_count := 0,
    acquire_count := 0, scavenge_count := 0 }

/-- A concrete `BufferCache` state holding one cached range. -/
def oneEntryState : BCState Nat :=
  { transient_cache := [(0, 4, 0)], rb := 0, writes := [], copy_count := 0,
    acquire_count := 0, scavenge_count := 0 }

/-- C1: the claim states that for every count and index `i < count`,
`copy_cmp_swap_16/32_unaligned` writes the all-ones value when
`byteSwap(src[i])` equals the sentinel.  The code violates this: the
residual loops (`count mod 8`, resp. `count mod 4`, trailing elements)
perform `dest[i] = byte_swap(src[i])` with no comparison, so with `count =
1`, `src = [0x3412]`, sentinel `0x1234` the 16-bit routine writes `0x1234`
(and the 32-bit routine with `src = [0x01000000]`, sentinel `1` writes `1`)
instead of all-ones, even though `byteSwap(src[0])` equals the sentinel. -/
theorem copy_cmp_swap_residual_skips_substitution :
    copy_cmp_swap_16_unaligned [0x3412] 0x1234 = [0x1234] ∧
    copy_cmp_swap_32_unaligned [0x01000000] 1 = [1] ∧
    bswap16 0x3412 = 0x1234 ∧
    bswap32 0x01000000 = 1 ∧
    (0x1234 : Nat) ≠ 0xFFFF ∧
    (1 : Nat) ≠ 0xFFFFFFFF := by
  decide

/-- C5 (counterexample-style evaluation): the vectorized
`copy_cmp_swap_16/32_unaligned` and the scalar `#else`
`copy_and_swap_16/32_unaligned` (with `cmp_value`) disagree on a one-element
input whose byte-swapped value equals the sentinel: the scalar routines
substitute all-ones for every element, while the vectorized residual loops
do not substitute at all. -/
theorem copy_cmp_swap_differs_from_scalar :
    copy_cmp_swap_32_unaligned [0x01000000] 1 ≠
        copy_and_swap_32_unaligned [0x01000000] 1 ∧
      copy_cmp_swap_32_unaligned [0x01000000] 1 = [1] ∧
      copy_and_swap_32_unaligned [0x01000000] 1 = [0xFFFFFFFF] ∧
      copy_cmp_swap_16_unaligned [0x3412] 0x1234 ≠
        copy_and_swap_16_unaligned [0x3412] 0x1234 ∧
      copy_and_swap_16_unaligned [0x3412] 0x1234 = [0xFFFF] := by
  decide

/-- C2 (counterexample): `AllocateTransientData` on allocation failure runs
`transient_buffer_->Scavenge()` without clearing `transient_cache_`: with a
ring whose `Acquire` always fails and a state holding one cache entry, the
call performs exactly one ring `Scavenge` yet the entry survives, so a
`RangeCache` entry outlives a call in which the ring `Scavenge`
runs. -/
theorem allocateTransientData_scavenges_without_clearing_cache :
    (AllocateTransientData ringAlwaysFail oneEntryState 16 0).2.scavenge_count
        = 1 ∧
      (AllocateTransientData ringAlwaysFail oneEntryState
          16 0).2.transient_cache = [(0, 4, 0)] ∧
      ([(0, 4, 0)] : TransientCache) ≠ [] := by
  decide

/-- C2 (amended): `BufferCache::Scavenge` clears the `RangeCache` in the same
call in which it forwards to the ring `Scavenge`; but
`AllocateTransientData`, which also invokes the ring `Scavenge` on
allocation failure, never modifies the `RangeCache`, so its entries survive
that path. -/
theorem scavenge_clears_cache_allocate_preserves_cache :
    ∀ (σ : Type) (R : RingOps σ) (s : BCState σ) (len fence : Nat),
      (Scavenge R s).transient_cache = [] ∧
      (Scavenge R s).rb = R.scavenge s.rb ∧
      (Scavenge R s).scavenge_count = s.scavenge_count + 1 ∧
      (AllocateTransientData R s len fence).2.transient_cache =
        s.transient_cache := by
  intro σ R s len fence
  exact ⟨rfl, rfl, rfl, (allocate_preserves R s len fence).1⟩

/-- C10: `InvalidateCache()` and `ClearCache()` are extensionally equal: on
every state both clear `transient_cache_` entirely and change nothing else. -/
theorem invalidateCache_eq_clearCache :
    ∀ (σ : Type) (s : BCState σ),
      InvalidateCache s = ClearCache s ∧
      (InvalidateCache s).transient_cache = [] ∧
      (InvalidateCache s).rb = s.rb ∧
      (InvalidateCache s).writes = s.writes ∧
      (InvalidateCache s).copy_count = s.copy_count ∧
      (InvalidateCache s).acquire_count = s.acquire_count ∧
      (InvalidateCache s).scavenge_count = s.scavenge_count :=
  fun _ _ => ⟨rfl, rfl, rfl, rfl, rfl, rfl, rfl⟩

/-- C3 (counterexample): the eviction scan of `CacheTransientData` stops at
the first entry that is not fully contained, so a fully contained entry
hiding behind a longer one survives.  Insert `(11, 200)`, then `(12, 2)`,
then the superseding `(10, 100)`: the interval `[12, 14)` of the previously
inserted entry lies entirely inside `[10, 110)`, yet the entry survives and
a subsequent `Find(12, 2)` still returns its offset `9`. -/
theorem cacheTransientData_contained_entry_survives :
    (12, 2, 9) ∈
        CacheTransientData
          (CacheTransientData (CacheTransientData [] 11 200 7) 12 2 9)
          10 100 5 ∧
      FindCachedTransientData
          (CacheTransientData
            (CacheTransientData (CacheTransientData [] 11 200 7) 12 2 9)
            10 100 5) 12 2 = 9 ∧
      10 ≤ 12 ∧ 12 + 2 ≤ 10 + 100 ∧ (9 : Nat) ≠ VK_WHOLE_SIZE := by
  decide

/-- C3 (amended): after `CacheTransientData(address, length, offset)`, the
entry at key `address` itself is the new binding (any previous binding at
that key is replaced), and the forward scan removes contained entries only
until it first reaches an entry that is not fully contained in
`[address, address + length)`; consequently a previously inserted fully
contained entry (key `> address`, end `<= address + length`) can remain
only when some surviving entry strictly between `address` and it extends
beyond `address + length`.  (Bounds: intervals do not wrap modulo `2^32`.) -/
theorem cacheTransientData_evicts_contained_run
    (c : TransientCache) (addr len off : Nat)
    (hs : sortedKeys c = true)
    (hb : ∀ x ∈ c, x.1 + x.2.1 < U32)
    (hq : addr + len < U32) :
    (∀ x ∈ CacheTransientData c addr len off, x.1 = addr →
        x = (addr, len, off)) ∧
    (∀ x ∈ CacheTransientData c addr len off, addr < x.1 →
        x.1 + x.2.1 ≤ addr + len →
        ∃ y ∈ CacheTransientData c addr len off,
          addr < y.1 ∧ y.1 < x.1 ∧ addr + len < y.1 + y.2.1) := by
  have hbound : ∀ x ∈ CacheTransientData c addr len off,
      x.1 + x.2.1 < U32 := by
    intro x hx
    rcases mem_mapInsert (mem_cacheScan hx) with hx2 | hx2
    · rw [hx2]
      exact hq
    · exact hb x hx2
  constructor
  · intro x hx hk
    exact mapInsert_key_eq hs (mem_cacheScan hx) hk
  · intro x hx hgt hcont
    have hq2 : (addr + len) % U32 = addr + len := Nat.mod_eq_of_lt hq
    have hx2 : (x.1 + x.2.1) % U32 = x.1 + x.2.1 :=
      Nat.mod_eq_of_lt (hbound x hx)
    have hmod : (addr + len) % U32 ≥ (x.1 + x.2.1) % U32 := by
      rw [hq2, hx2]
      exact hcont
    rcases cacheScan_spec (mapInsert_sorted hs) hx hgt hmod
      with ⟨y, hy, h1, h2, h3⟩
    refine ⟨y, hy, h1, h2, ?_⟩
    have hy2 : (y.1 + y.2.1) % U32 = y.1 + y.2.1 :=
      Nat.mod_eq_of_lt (hbound y hy)
    rw [hq2, hy2] at h3
    exact h3

/-- C3 (amended, witness): at the counterexample state, the surviving
contained entry `(12, 2, 9)` indeed has a non-contained blocker strictly
between `10` and `12`. -/
theorem cacheTransientData_evicts_contained_run_witness :
    ∃ y ∈ CacheTransientData
        (CacheTransientData (CacheTransientData [] 11 200 7) 12 2 9)
        10 100 5,
      10 < y.1 ∧ y.1 < 12 ∧ 10 + 100 < y.1 + y.2.1 :=
  (cacheTransientData_evicts_contained_run
      (CacheTransientData (CacheTransientData [] 11 200 7) 12 2 9)
      10 100 5 (by decide) (by decide) (by decide)).2
    (12, 2, 9) (by decide) (by decide) (by decide)

/-- C4: `FindCachedTransientData(address, length)` returns a hit iff the
entry with the greatest `guestAddress <= address` exists and its interval
`[guestAddress, guestAddress + guestLength)` fully contains
`[address, address + length)`; on a hit it returns
`bufferOffset + (address - guestAddress)`, and otherwise (no such entry, or
that entry does not contain the query) it returns `VK_WHOLE_SIZE`.
(Bounds: stored intervals do not wrap modulo `2^32` and stored offsets are
small enough that the `VkDeviceSize` sum does not wrap.) -/
theorem findCachedTransientData_greatest_entry_spec
    (c : TransientCache) (addr len : Nat)
    (hs : sortedKeys c = true)
    (hb : ∀ x ∈ c, x.1 + x.2.1 < U32 ∧ x.2.2 < U64 - U32)
    (hq : addr + len < U32) :
    ((∀ x ∈ c, addr < x.1) →
        FindCachedTransientData c addr len = VK_WHOLE_SIZE) ∧
    (∀ x ∈ c, x.1 ≤ addr → (∀ y ∈ c, y.1 ≤ addr → y.1 ≤ x.1) →
        (addr + len ≤ x.1 + x.2.1 →
            FindCachedTransientData c addr len = x.2.2 + (addr - x.1)) ∧
        (x.1 + x.2.1 < addr + len →
            FindCachedTransientData c addr len = VK_WHOLE_SIZE)) := by
  constructor
  · intro hall
    cases c with
    | nil => simp [FindCachedTransientData]
    | cons hd tl =>
      have hn := findLE_eq_none hall
      simp [FindCachedTransientData, hn]
  · intro x hx hle hmax
    have hfl := findLE_greatest hs hx hle hmax
    have hne : c ≠ [] := by
      intro h
      rw [h] at hx
      simp at hx
    have heq := @find_eq_of_findLE c addr len x hne hfl
    have hq2 : (addr + len) % U32 = addr + len := Nat.mod_eq_of_lt hq
    have hx2 : (x.1 + x.2.1) % U32 = x.1 + x.2.1 :=
      Nat.mod_eq_of_lt (hb x hx).1
    rw [hq2, hx2] at heq
    constructor
    · intro hcc
      rw [heq, if_pos hcc]
      have hsmall : x.2.2 + (addr - x.1) < U64 := by
        have h1 := (hb x hx).2
        have h2 : addr - x.1 ≤ addr := Nat.sub_le addr x.1
        have h3 : addr < U32 := by omega
        unfold U32 U64 at *
        omega
      exact Nat.mod_eq_of_lt hsmall
    · intro hcc
      rw [heq, if_neg (by omega)]

/-- C4 (witness): on the one-entry cache `[(0, 4, 5)]` the greatest entry
with key `<= 1` is `(0, 4, 5)`, it contains `[1, 3)`, and `Find(1, 2)`
returns `5 + (1 - 0)`. -/
theorem findCachedTransientData_greatest_entry_spec_witness :
    FindCachedTransientData [(0, 4, 5)] 1 2 = 5 + (1 - 0) :=
  ((findCachedTransientData_greatest_entry_spec [(0, 4, 5)] 1 2
      (by decide) (by decide) (by decide)).2
    (0, 4, 5) (by decide) (by decide) (by decide)).1 (by decide)

/-- C8: `AllocateTransientData(length, fence)` first attempts one ring
`Acquire`; on success it returns that offset having made exactly one
attempt and no ring `Scavenge`; if and only if the first attempt fails it
runs the ring `Scavenge` exactly once and retries exactly once (two
attempts total); a second failure is returned as `VK_WHOLE_SIZE` with no
further retry, and a success on either attempt returns, for that attempt, the
offset.  (`hacq` is the `VkDeviceSize` contract that real ring offsets are
never the `VK_WHOLE_SIZE` sentinel.) -/
theorem allocateTransientData_single_retry_spec {σ : Type} (R : RingOps σ)
    (s : BCState σ) (len fence : Nat)
    (hacq : ∀ (rb1 : σ) (off : Nat) (rb2 : σ),
      R.acquire rb1 len fence = some (off, rb2) → off ≠ VK_WHOLE_SIZE) :
    (∀ off rb2, R.acquire s.rb len fence = some (off, rb2) →
        AllocateTransientData R s len fence =
          (off, { s with rb := rb2,
                         acquire_count := s.acquire_count + 1 })) ∧
    (R.acquire s.rb len fence = none →
      (∀ off2 rb2, R.acquire (R.scavenge s.rb) len fence = some (off2, rb2) →
          AllocateTransientData R s len fence =
            (off2, { s with rb := rb2,
                            acquire_count := s.acquire_count + 2,
                            scavenge_count := s.scavenge_count + 1 })) ∧
      (R.acquire (R.scavenge s.rb) len fence = none →
          AllocateTransientData R s len fence =
            (VK_WHOLE_SIZE,
             { s with rb := R.scavenge s.rb,
                      acquire_count := s.acquire_count + 2,
                      scavenge_count := s.scavenge_count + 1 }))) := by
  rw [allocate_eq]
  refine ⟨?_, ?_⟩
  · intro off rb2 hA
    have h1 : tryOffset R s.rb len fence = off := by
      simp [tryOffset, hA]
    have h2 : tryRb R s.rb len fence = rb2 := by
      simp [tryRb, hA]
    have hne : off ≠ VK_WHOLE_SIZE := hacq s.rb off rb2 hA
    simp [allocOffset, allocRb, allocTries, allocScavs, h1, h2, hne]
  · intro hA1
    have h1 : tryOffset R s.rb len fence = VK_WHOLE_SIZE := by
      simp [tryOffset, hA1]
    have h2 : tryRb R s.rb len fence = s.rb := by
      simp [tryRb, hA1]
    refine ⟨?_, ?_⟩
    · intro off2 rb2 hA2
      have g1 : tryOffset R (R.scavenge s.rb) len fence = off2 := by
        simp [tryOffset, hA2]
      have g2 : tryRb R (R.scavenge s.rb) len fence = rb2 := by
        simp [tryRb, hA2]
      simp [allocOffset, allocRb, allocTries, allocScavs, h1, h2, g1, g2]
    · intro hA2
      have g1 : tryOffset R (R.scavenge s.rb) len fence = VK_WHOLE_SIZE := by
        simp [tryOffset, hA2]
      have g2 : tryRb R (R.scavenge s.rb) len fence = R.scavenge s.rb := by
        simp [tryRb, hA2]
      simp [allocOffset, allocRb, allocTries, allocScavs, h1, h2, g1, g2]

/-- C8 (witness): with a ring that always grants offset 0, the first attempt
succeeds: one `Acquire`, no `Scavenge`, offset 0 returned. -/
theorem allocateTransientData_single_retry_spec_witness :
    AllocateTransientData ringAlwaysZero emptyState 16 0 =
      (0, { emptyState with rb := 0,
                            acquire_count := emptyState.acquire_count + 1 }) :=
  (allocateTransientData_single_retry_spec ringAlwaysZero emptyState 16 0
      (by
        intro rb1 off rb2 h
        simp [ringAlwaysZero] at h
        rcases h with ⟨h1, _⟩
        rw [← h1]
        decide)).1
    0 0 rfl

lemma getD_append_lt (A B : List Nat) (i : Nat) (h : i < A.length) :
    (A ++ B).getD i 0 = A.getD i 0 := by
  induction A generalizing i with
  | nil => simp at h
  | cons a t ih =>
    cases i with
    | zero => simp
    | succ n =>
      simp only [List.cons_append, List.getD_cons_succ]
      exact ih n (by simpa using h)

lemma getD_append_len (A B : List Nat) (i : Nat) :
    (A ++ B).getD (A.length + i) 0 = B.getD i 0 := by
  induction A with
  | nil => simp
  | cons a t ih =>
    simp only [List.cons_append, List.length_cons]
    rw [Nat.succ_add]
    simpa [List.getD_cons_succ] using ih

lemma getD_map_range (f : Nat → Nat) (n i : Nat) (h : i < n) :
    ((List.range n).map f).getD i 0 = f i := by
  rw [List.getD_eq_getElem ((List.range n).map f) 0 (by simpa using h)]
  simp

/-- C9: a successful `UploadConstantRegisters` allocates exactly
`512 * 4 * 4 + 8 * 4 + 32 * 4` bytes (the allocation length is
`kConstantRegisterUniformRange`, as witnessed by the `Acquire` hypothesis at
that length), returns `{offset, offset}`, and writes at the allocated offset
one contiguous block of exactly that many bytes whose 32-bit words are, in
order, the 2048 float-constant registers, then the 8 boolean-constant
registers, then the 32 loop-constant registers, each copied verbatim (no
byte-order transform). -/
theorem uploadConstantRegisters_layout_spec {σ : Type} (R : RingOps σ)
    (regs : Nat → Nat) (s : BCState σ) (fence : Nat) (off : Nat) (rb2 : σ)
    (h1 : R.acquire s.rb kConstantRegisterUniformRange fence =
      some (off, rb2))
    (h2 : off ≠ VK_WHOLE_SIZE) :
    kConstantRegisterUniformRange = 512 * 4 * 4 + 8 * 4 + 32 * 4 ∧
    (UploadConstantRegisters R regs s fence).1 = (off, off) ∧
    ∃ d : List Nat,
      (UploadConstantRegisters R regs s fence).2.writes =
          s.writes ++ [(off, d)] ∧
        4 * d.length = kConstantRegisterUniformRange ∧
        (∀ i, i < 2048 →
          d.getD i 0 = regs (XE_GPU_REG_SHADER_CONSTANT_000_X + i) % U32) ∧
        (∀ i, i < 8 →
          d.getD (2048 + i) 0 =
            regs (XE_GPU_REG_SHADER_CONSTANT_BOOL_000_031 + i) % U32) ∧
        (∀ i, i < 32 →
          d.getD (2056 + i) 0 =
            regs (XE_GPU_REG_SHADER_CONSTANT_LOOP_00 + i) % U32) := by
  have htry : tryOffset R s.rb kConstantRegisterUniformRange fence = off := by
    simp [tryOffset, h1]
  have hoff : allocOffset R s.rb kConstantRegisterUniformRange fence = off := by
    simp [allocOffset, htry, h2]
  refine ⟨rfl, ?_, ?_⟩
  · simp [UploadConstantRegisters, allocate_eq, hoff, h2]
  · refine ⟨constantRegistersData regs, ?_, ?_, ?_, ?_, ?_⟩
    · simp [UploadConstantRegisters, allocate_eq, hoff, h2]
    · simp [constantRegistersData, kConstantRegisterUniformRange]
    · intro i hi
      unfold constantRegistersData
      rw [List.append_assoc]
      rw [getD_append_lt _ _ i (by simpa using hi)]
      exact getD_map_range _ 2048 i hi
    · intro i hi
      unfold constantRegistersData
      rw [List.append_assoc]
      have hF : ((List.range 2048).map
          (fun i => regs (XE_GPU_REG_SHADER_CONSTANT_000_X + i) % U32)).length
          = 2048 := by simp
      rw [show (2048 : Nat) + i = ((List.range 2048).map
          (fun i => regs (XE_GPU_REG_SHADER_CONSTANT_000_X + i) % U32)).length
          + i by rw [hF]]
      rw [getD_append_len]
      rw [getD_append_lt _ _ i (by simpa using hi)]
      exact getD_map_range _ 8 i hi
    · intro i hi
      unfold constantRegistersData
      have hFB : (((List.range 2048).map
            (fun i => regs (XE_GPU_REG_SHADER_CONSTANT_000_X + i) % U32)) ++
          ((List.range 8).map
            (fun i =>
              regs (XE_GPU_REG_SHADER_CONSTANT_BOOL_000_031 + i) % U32))).length
          = 2056 := by simp
      rw [show (2056 : Nat) + i = (((List.range 2048).map
            (fun i => regs (XE_GPU_REG_SHADER_CONSTANT_000_X + i) % U32)) ++
          ((List.range 8).map
            (fun i =>
              regs (XE_GPU_REG_SHADER_CONSTANT_BOOL_000_031 + i) % U32))).length
          + i by rw [hFB]]
      rw [getD_append_len]
      exact getD_map_range _ 32 i hi

/-- C9 (witness): with a ring granting offset 0 and the all-sevens register
file, the call returns `(0, 0)`. -/
theorem uploadConstantRegisters_layout_spec_witness :
    kConstantRegisterUniformRange = 512 * 4 * 4 + 8 * 4 + 32 * 4 ∧
    (UploadConstantRegisters ringAlwaysZero (fun _ => 7) emptyState 0).1 =
      (0, 0) :=
  ⟨(uploadConstantRegisters_layout_spec ringAlwaysZero (fun _ => 7)
      emptyState 0 0 0 rfl (by decide)).1,
   (uploadConstantRegisters_layout_spec ringAlwaysZero (fun _ => 7)
      emptyState 0 0 0 rfl (by decide)).2.1⟩

/-- C6: `UploadIndexBuffer` never consults or inserts into the range cache —
its resulting `transient_cache_` always equals the incoming one, and its
result and all other state effects are independent of the cache contents —
and on a successful allocation it performs a fresh copy whose data is
selected from register state: when bit 21 of `PA_SU_SC_MODE_CNTL` (primitive
restart enable) is set it uses the sentinel-substituting
`copy_cmp_swap_16/32_unaligned` of the width given by `format` with the
restart index from `VGT_MULTI_PRIM_IB_RESET_INDX` (truncated to `uint16_t`
for 16-bit indices), and otherwise the plain
`xe::copy_and_swap_16/32_unaligned` of that width. -/
theorem uploadIndexBuffer_bypasses_cache_selects_routine {σ : Type}
    (R : RingOps σ) (regs mem : Nat → Nat) (s : BCState σ)
    (addr len : Nat) (fmt : IndexFormat) (fence : Nat) (off : Nat) (rb2 : σ)
    (h1 : R.acquire s.rb len fence = some (off, rb2))
    (h2 : off ≠ VK_WHOLE_SIZE) :
    (∀ s2 : BCState σ,
        (UploadIndexBuffer R regs mem s2 addr len fmt
            fence).2.transient_cache = s2.transient_cache) ∧
    (∀ c2 : TransientCache,
        UploadIndexBuffer R regs mem { s with transient_cache := c2 } addr
            len fmt fence =
          ((UploadIndexBuffer R regs mem s addr len fmt fence).1,
           { (UploadIndexBuffer R regs mem s addr len fmt fence).2 with
               transient_cache := c2 })) ∧
    (UploadIndexBuffer R regs mem s addr len fmt fence).1 = (true, off) ∧
    (UploadIndexBuffer R regs mem s addr len fmt fence).2.writes =
      s.writes ++ [(off,
        if Nat.testBit (regs XE_GPU_REG_PA_SU_SC_MODE_CNTL % U32) 21 then
          match fmt with
          | .kInt16 =>
            copy_cmp_swap_16_unaligned (readElems16 mem addr (len / 2))
              (regs XE_GPU_REG_VGT_MULTI_PRIM_IB_RESET_INDX % U32 % U16)
          | .kInt32 =>
            copy_cmp_swap_32_unaligned (readElems32 mem addr (len / 4))
              (regs XE_GPU_REG_VGT_MULTI_PRIM_IB_RESET_INDX % U32)
        else
          match fmt with
          | .kInt16 =>
            xe_copy_and_swap_16_unaligned (readElems16 mem addr (len / 2))
          | .kInt32 =>
            xe_copy_and_swap_32_unaligned (readElems32 mem addr (len / 4)))] := by
  have htry : tryOffset R s.rb len fence = off := by
    simp [tryOffset, h1]
  have hoff : allocOffset R s.rb len fence = off := by
    simp [allocOffset, htry, h2]
  refine ⟨?_, ?_, ?_, ?_⟩
  · intro s2
    simp only [UploadIndexBuffer, allocate_eq]
    by_cases h : allocOffset R s2.rb len fence = VK_WHOLE_SIZE <;> simp [h]
  · intro c2
    simp only [UploadIndexBuffer, allocate_eq]
    by_cases h : allocOffset R s.rb len fence = VK_WHOLE_SIZE <;> simp [h]
  · simp [UploadIndexBuffer, allocate_eq, hoff, h2]
  · simp only [UploadIndexBuffer, allocate_eq, hoff, if_neg h2]
    simp [indexUploadElems]

/-- C6 (witness): a concrete successful 16-bit index upload returns the
transient buffer and offset 0. -/
theorem uploadIndexBuffer_bypasses_cache_selects_routine_witness :
    (UploadIndexBuffer ringAlwaysZero (fun _ => 0) (fun _ => 0) emptyState 0 4
        IndexFormat.kInt16 0).1 = (true, 0) :=
  (uploadIndexBuffer_bypasses_cache_selects_routine ringAlwaysZero
      (fun _ => 0) (fun _ => 0) emptyState 0 4 IndexFormat.kInt16 0 0 0
      rfl (by decide)).2.2.1

/-- C7: `UploadVertexBuffer` serves range-cache hits without any copy or
allocation — on a hit it returns the cached offset with the state (ring,
write log, and all effect counters) completely unchanged; a second identical
call after any successful call returns the same `(buffer, offset)` pair and
changes nothing (in particular the copy engine is not re-invoked); and after
`InvalidateCache()` the same call performs a fresh upload, re-invoking the
copy engine exactly once (given the ring grants the allocation). -/
theorem uploadVertexBuffer_cache_reuse_spec {σ : Type} (R : RingOps σ)
    (mem : Nat → Nat) (s : BCState σ) (addr len : Nat) (e : Endian)
    (fence : Nat)
    (hs : sortedKeys s.transient_cache = true)
    (hacq : ∀ (rb1 : σ) (off : Nat) (rb2 : σ),
      R.acquire rb1 len fence = some (off, rb2) → off < VK_WHOLE_SIZE) :
    (∀ off, FindCachedTransientData s.transient_cache addr len = off →
        off ≠ VK_WHOLE_SIZE →
        UploadVertexBuffer R mem s addr len e fence = ((true, off), s)) ∧
    (∀ off s1,
        UploadVertexBuffer R mem s addr len e fence = ((true, off), s1) →
        UploadVertexBuffer R mem s1 addr len e fence = ((true, off), s1)) ∧
    (∀ off2 rb2, R.acquire s.rb len fence = some (off2, rb2) →
        (UploadVertexBuffer R mem (InvalidateCache s) addr len e fence).1 =
            (true, off2) ∧
          (UploadVertexBuffer R mem (InvalidateCache s) addr len e
              fence).2.copy_count = s.copy_count + 1) := by
  refine ⟨?_, ?_, ?_⟩
  · intro off hf hne
    simp [UploadVertexBuffer, hf, hne]
  · intro off s1 h
    by_cases hf : FindCachedTransientData s.transient_cache addr len =
      VK_WHOLE_SIZE
    · by_cases ha : allocOffset R s.rb len fence = VK_WHOLE_SIZE
      · exfalso
        simp [UploadVertexBuffer, hf, allocate_eq, ha] at h
      · have hmiss := uploadVertex_miss_eq R mem s addr len e fence hf ha
        rw [hmiss] at h
        have hlt : allocOffset R s.rb len fence < VK_WHOLE_SIZE :=
          allocOffset_lt R s.rb len fence hacq ha
        have hU : allocOffset R s.rb len fence % U64 =
            allocOffset R s.rb len fence := by
          apply Nat.mod_eq_of_lt
          unfold VK_WHOLE_SIZE at hlt
          unfold U64
          omega
        rw [hU] at h
        have hoff2 : off = allocOffset R s.rb len fence := by
          have := congrArg (fun p => p.1.2) h
          simpa using this.symm
        have hst : s1 = { s with
            transient_cache := CacheTransientData s.transient_cache addr len
              (allocOffset R s.rb len fence),
            rb := allocRb R s.rb len fence,
            writes := s.writes ++ [(allocOffset R s.rb len fence,
              vertexUploadElems mem addr len e)],
            copy_count := s.copy_count + 1,
            acquire_count := s.acquire_count + allocTries R s.rb len fence,
            scavenge_count :=
              s.scavenge_count + allocScavs R s.rb len fence } := by
          have := congrArg Prod.snd h
          simpa using this.symm
        have hfind2 : FindCachedTransientData s1.transient_cache addr len =
            allocOffset R s.rb len fence := by
          rw [hst]
          exact find_after_insert hs hlt
        subst hoff2
        simp [UploadVertexBuffer, hfind2, Nat.ne_of_lt hlt]
    · have hcall : UploadVertexBuffer R mem s addr len e fence =
          ((true, FindCachedTransientData s.transient_cache addr len), s) := by
        simp [UploadVertexBuffer, hf]
      rw [hcall] at h
      have hoff2 : FindCachedTransientData s.transient_cache addr len =
          off := by
        have := congrArg (fun p => p.1.2) h
        simpa using this
      have hst : s = s1 := by
        have := congrArg Prod.snd h
        simpa using this
      rw [← hst, hcall, hoff2]
  · intro off2 rb2 hA
    have hlt := hacq s.rb off2 rb2 hA
    have htry : tryOffset R s.rb len fence = off2 := by
      simp [tryOffset, hA]
    have hne : off2 ≠ VK_WHOLE_SIZE := Nat.ne_of_lt hlt
    have hoff : allocOffset R s.rb len fence = off2 := by
      simp [allocOffset, htry, hne]
    have hfe : FindCachedTransientData
        (InvalidateCache s).transient_cache addr len = VK_WHOLE_SIZE := by
      simp [InvalidateCache, FindCachedTransientData]
    have ha2 : allocOffset R (InvalidateCache s).rb len fence ≠
        VK_WHOLE_SIZE := by
      show allocOffset R s.rb len fence ≠ VK_WHOLE_SIZE
      rw [hoff]
      exact hne
    have hmiss := uploadVertex_miss_eq R mem (InvalidateCache s) addr len e
      fence hfe ha2
    have hU : off2 % U64 = off2 := by
      apply Nat.mod_eq_of_lt
      unfold VK_WHOLE_SIZE at hlt
      unfold U64
      omega
    rw [hmiss]
    constructor
    · show (true, allocOffset R (InvalidateCache s).rb len fence % U64) =
        (true, off2)
      have : allocOffset R (InvalidateCache s).rb len fence = off2 := hoff
      rw [this, hU]
    · rfl

/-- C7 (witness): in the empty-cache state with an always-granting ring, the
invalidate-then-upload path re-invokes the copy engine. -/
theorem uploadVertexBuffer_cache_reuse_spec_witness :
    (UploadVertexBuffer ringAlwaysZero (fun _ => 0)
        (InvalidateCache emptyState) 0 8 Endian.k8in32 0).1 = (true, 0) ∧
    (UploadVertexBuffer ringAlwaysZero (fun _ => 0)
        (InvalidateCache emptyState) 0 8 Endian.k8in32 0).2.copy_count =
      emptyState.copy_count + 1 :=
  (uploadVertexBuffer_cache_reuse_spec ringAlwaysZero (fun _ => 0) emptyState
      0 8 Endian.k8in32 0 (by decide)
      (by
        intro rb1 off rb2 h
        simp [ringAlwaysZero] at h
        rcases h with ⟨h1, _⟩
        rw [← h1]
        decide)).2.2 0 0 rfl
